import Mathlib

/-!
Shallow embedding of the Pawlygon-Utils Blender add-on (src/utils.py,
src/operators.py, src/properties.py).

The host (Blender) owns the mutable scene graph; the Python code mutates it
through `bpy`.  The embedding models the parts of that object graph the code
touches and turns each in-place-mutating procedure into a pure function from
the old state to the new state paired with its return value; a Python `None`
return (or an operation that would raise on a `None` object) becomes
`Option.none`.

Host primitives (`bpy.ops.object.shape_key_move`, `shape_key_add`,
`shape_key_remove`, `shape_key_clear`, `Object.shape_key_add`) are modelled
on the key-block list:
  * `shape_key_move(type='UP'/'DOWN')` swaps the active key block with its
    neighbour and the active index follows it.  Every call site in the source
    guards the list boundary, so the boundary case (where the host would wrap
    cyclically) is modelled as a no-op and is never reached by the theorems.
  * `shape_key_add` appends a key block (blend value 0, no vertex-group mask)
    and makes it active; the host's auto-generated name is modelled by a
    placeholder since the source renames the block immediately.
  * `shape_key_remove` deletes the active key block.
  * `shape_key_clear` resets every key block's blend value to 0.
-/

set_option autoImplicit false

namespace PawlygonUtils

/-- Model of Python `s.endswith(suffix)`: the suffix's characters are a
suffix of the string's characters.  (Stated over `String.data` so that it
reduces in the kernel; extensionally it is the usual suffix test.) -/
def strEndsWith (s suffix : String) : Bool :=
  suffix.data.isSuffixOf s.data

/-- One entry of an object's shapekey collection (`ShapeKey` in the host):
a name, a blend weight (`value`), and a vertex-group mask name
(`""` = no mask). -/
structure KeyBlock where
  name : String
  value : ℚ
  vertex_group : String
deriving DecidableEq

/-- The slice of a Blender mesh object the source code reads and mutates:
`obj.data.shape_keys` (flattened to its `key_blocks` list; `none` models a
mesh with no shapekey collection), `obj.active_shape_key_index`,
`obj.vertex_groups` (only names are ever consulted), and the `type`/`mode`
fields the operator polls test. -/
structure SceneObject where
  shape_keys : Option (List KeyBlock)
  active_shape_key_index : Nat
  vertex_groups : List String
  type : String
  mode : String
deriving DecidableEq

/-- Key blocks of an object, `[]` when there is no shapekey collection
(convenience accessor for theorem statements). -/
def keyBlocks (o : SceneObject) : List KeyBlock :=
  o.shape_keys.getD []

/-- Swap the entries at positions `i` and `i+1`; identity when `i+1` is out
of range.  This is the single step both `shape_key_move` directions reduce
to. -/
def swapAdj {α : Type} : List α → Nat → List α
  | x :: y :: tl, 0 => y :: x :: tl
  | x :: tl, n + 1 => x :: swapAdj tl n
  | l, _ => l

/-- Model of one `bpy.ops.object.shape_key_move(type='UP')` on
(key blocks, active index): swap the active block with its predecessor, the
active index follows.  (Call sites never invoke it at index 0, where the
host would wrap.) -/
def moveActiveUp {α : Type} (ks : List α) (i : Nat) : List α × Nat :=
  if i = 0 then (ks, i) else (swapAdj ks (i - 1), i - 1)

/-- `n` repetitions of `shape_key_move(type='UP')`
(`for _ in range(n): bpy.ops.object.shape_key_move(type='UP')`). -/
def moveUpN {α : Type} (ks : List α) (i : Nat) : Nat → List α × Nat
  | 0 => (ks, i)
  | n + 1 =>
    let p := moveActiveUp ks i
    moveUpN p.1 p.2 n

/-- Model of one `bpy.ops.object.shape_key_move(type='DOWN')`: swap the
active block with its successor, the active index follows.  (Call sites
never invoke it at the last index, where the host would wrap.) -/
def moveActiveDown {α : Type} (ks : List α) (i : Nat) : List α × Nat :=
  if i + 1 < ks.length then (swapAdj ks i, i + 1) else (ks, i)

/-- `n` repetitions of `shape_key_move(type='DOWN')`. -/
def moveDownN {α : Type} (ks : List α) (i : Nat) : Nat → List α × Nat
  | 0 => (ks, i)
  | n + 1 =>
    let p := moveActiveDown ks i
    moveDownN p.1 p.2 n

/-- Fuel-bounded body of the
`while obj.active_shape_key_index < target_index:
bpy.ops.object.shape_key_move(type='DOWN')` loop: each iteration re-tests
the guard and performs one downward move.  Structural recursion on the fuel
keeps the function kernel-reducible. -/
def moveDownLoop {α : Type} : Nat → List α → Nat → List α × Nat
  | 0, ks, i => (ks, i)
  | n + 1, ks, i =>
    if i + 1 < ks.length then moveDownLoop n (swapAdj ks i) (i + 1)
    else (ks, i)

/-- `while obj.active_shape_key_index < target_index:
bpy.ops.object.shape_key_move(type='DOWN')` with
`target_index = len(key_blocks) - 1` (utils.py, move_old_shapekeys_to_bottom):
push the active block down until it is last.  Each iteration advances the
active index by one toward `length - 1`, so `length - (i + 1)` iterations
always suffice; `moveDownLoop` re-checks the guard each round, making this
equal to the unbounded while loop. -/
def moveDownUntilEnd {α : Type} (ks : List α) (i : Nat) : List α × Nat :=
  moveDownLoop (ks.length - (i + 1)) ks i

/-- Model of `bpy.ops.object.shape_key_clear()`: reset every key block's
blend value to 0 (names, order and masks untouched). -/
def clearValues (ks : List KeyBlock) : List KeyBlock :=
  ks.map fun kb => { kb with value := 0 }

/-- Update the key block at position `i` (identity when out of range);
models a Python attribute assignment on a block reference, re-identified by
position. -/
def updateAt (ks : List KeyBlock) (i : Nat) (f : KeyBlock → KeyBlock) :
    List KeyBlock :=
  match ks.get? i with
  | some kb => ks.set i (f kb)
  | none => ks

/-- The key block appended by `bpy.ops.object.shape_key_add(from_mix=True)`:
blend value 0, no mask, and a host-generated default name.  The source
renames the block on the next line and the rename consults only the
*other* blocks' names, so the placeholder is never observed. -/
def newMixKey : KeyBlock :=
  { name := "Key", value := 0, vertex_group := "" }

/-- The three-digit numeric part of the host's collision suffix
(`.001`, `.002`, …). -/
def numSuffix (k : Nat) : String :=
  if k < 10 then "00" ++ toString k
  else if k < 100 then "0" ++ toString k
  else toString k

/-- Candidate search of the host's name uniquification: try
`base ++ "." ++ numSuffix k` for increasing `k` until the name is free.
The fuel (one more than the number of taken names) always suffices since
the candidates are pairwise distinct; on exhaustion the last candidate is
returned. -/
def uniquifyLoop (taken : List String) (base : String) :
    Nat → Nat → String
  | 0, k => base ++ "." ++ numSuffix k
  | fuel + 1, k =>
    let candidate := base ++ "." ++ numSuffix k
    if taken.contains candidate then uniquifyLoop taken base fuel (k + 1)
    else candidate

/-- Model of the host's datablock-name uniquification: assigning
`block.name = base` keeps `base` when no other block carries it, and
otherwise stores a numbered variant (`base.001`, `base.002`, …) instead —
this is what maintains the collection's unique-name invariant. -/
def uniquifyName (taken : List String) (base : String) : String :=
  if taken.contains base then uniquifyLoop taken base (taken.length + 1) 1
  else base

/-- utils.py `get_missing_shapekeys(obj, expected_names)`: expected names
absent from the object's shapekey names, in the expected list's order;
every expected name when there is no object or no collection. -/
def get_missing_shapekeys (obj : Option SceneObject)
    (expected_names : List String) : List String :=
  match obj with
  | none => expected_names
  | some o =>
    match o.shape_keys with
    | none => expected_names
    | some ks =>
      let existing := ks.map KeyBlock.name
      expected_names.filter fun nm => !(existing.contains nm)

/-- The disposable-suffix test `kb.name.endswith('.old')` shared by the two
cleanup sweeps. -/
def isOld (kb : KeyBlock) : Bool :=
  strEndsWith kb.name ".old"

/-- utils.py `move_old_shapekeys_to_bottom`: positions of the key blocks
whose name ends with `'.old'`
(`[i for i, kb in enumerate(key_blocks) if kb.name.endswith('.old')]`). -/
def oldIndices (ks : List KeyBlock) : List Nat :=
  (ks.enum.filter fun p => isOld p.2).map Prod.fst

/-- Body of the `for idx in reversed(old_indices)` loop of
`move_old_shapekeys_to_bottom`, on the state
(key blocks, active index, moved count): skip index 0 (`continue`),
otherwise select the block and push it down to the last position, then
count it as moved. -/
def moveOldStep (st : List KeyBlock × Nat × Nat) (idx : Nat) :
    List KeyBlock × Nat × Nat :=
  if idx = 0 then st
  else
    let p := moveDownUntilEnd st.1 idx
    (p.1, p.2, st.2.2 + 1)

/-- utils.py `move_old_shapekeys_to_bottom(obj)`: returns the mutated
object and the reported count, `none` when there is no object or no
shapekey collection (the Python `None` return). -/
def move_old_shapekeys_to_bottom (obj : Option SceneObject) :
    Option (SceneObject × Nat) :=
  match obj with
  | none => none
  | some o =>
    match o.shape_keys with
    | none => none
    | some ks =>
      let st := ((oldIndices ks).reverse).foldl moveOldStep
        (ks, o.active_shape_key_index, 0)
      some ({ o with
                shape_keys := some st.1
                active_shape_key_index := st.2.1 },
        st.2.2)

/-- utils.py `delete_old_shapekeys`: names of the key blocks whose name ends
with `'.old'` (`[kb.name for kb in key_blocks if kb.name.endswith('.old')]`). -/
def oldNames (ks : List KeyBlock) : List String :=
  (ks.filter isOld).map KeyBlock.name

/-- Body of the `for name in reversed(old_names)` loop of
`delete_old_shapekeys` on (key blocks, active index, deleted count):
if a block with that name still exists, make the first such block active
(`list(key_blocks).index(key_blocks[name])`) and remove it
(`bpy.ops.object.shape_key_remove()`); the host then clamps the active
index to the preceding entry. -/
def deleteOldStep (st : List KeyBlock × Nat × Nat) (nm : String) :
    List KeyBlock × Nat × Nat :=
  if (st.1.map KeyBlock.name).contains nm then
    let i := st.1.findIdx fun kb => kb.name == nm
    (st.1.eraseIdx i, i - 1, st.2.2 + 1)
  else st

/-- utils.py `delete_old_shapekeys(obj)`: returns the mutated object and the
reported count, `none` when there is no object or no shapekey collection.
When the sweep removes the last key block the host frees the Key datablock,
so the object is left with `shape_keys = none` (the loop itself never
observes the freed collection: its guard tests membership of names taken
from that same collection, and the collection empties only on the final
iteration). -/
def delete_old_shapekeys (obj : Option SceneObject) :
    Option (SceneObject × Nat) :=
  match obj with
  | none => none
  | some o =>
    match o.shape_keys with
    | none => none
    | some ks =>
      let st := ((oldNames ks).reverse).foldl deleteOldStep
        (ks, o.active_shape_key_index, 0)
      some ({ o with
                shape_keys := if st.1.isEmpty then none else some st.1
                active_shape_key_index := st.2.1 },
        st.2.2)

/-- Body of the `for group_name, suffix in [(a, a), (b, b)]` loop of
`split_shapekey_by_groups` on (key blocks, active index, created names);
`origName`/`moveSteps` are the `original_name`/`move_steps` captured before
the loop.  Steps, in source order: clear all blend values, reselect the
original block by name, give it the group mask with full weight, append a
new key from the mix, rename it to `original_name + suffix` — the host
uniquifies the stored name against the other blocks' names, while the
Python variable `new_name` (and hence the recorded/returned created name)
keeps the un-uniquified value — then move the new key up `move_steps`
times. -/
def splitPass (origName : String) (moveSteps : Nat)
    (st : List KeyBlock × Nat × List String) (gname : String) :
    List KeyBlock × Nat × List String :=
  let ks1 := clearValues st.1
  let i1 := ks1.findIdx fun kb => kb.name == origName
  let ks2 := updateAt ks1 i1 fun kb =>
    { kb with vertex_group := gname, value := 1 }
  let ks3 := ks2 ++ [newMixKey]
  let act3 := ks3.length - 1
  let newName := origName ++ gname
  let taken := (ks3.eraseIdx act3).map KeyBlock.name
  let ks4 := updateAt ks3 act3 fun kb =>
    { kb with name := uniquifyName taken newName }
  let p := moveUpN ks4 act3 moveSteps
  (p.1, p.2, st.2.2 ++ [newName])

/-- utils.py `split_shapekey_by_groups(obj, group_a_name, group_b_name)`:
returns the mutated object and the pair of created names, `none` on any
failed precondition (no object, no shapekey collection, no active shapekey,
either vertex group missing). -/
def split_shapekey_by_groups (obj : Option SceneObject)
    (group_a_name group_b_name : String) :
    Option (SceneObject × (String × String)) :=
  match obj with
  | none => none
  | some o =>
    match o.shape_keys with
    | none => none
    | some ks =>
      match ks.get? o.active_shape_key_index with
      | none => none
      | some shape_key =>
        if o.vertex_groups.contains group_a_name &&
            o.vertex_groups.contains group_b_name then
          let original_name := shape_key.name
          let original_index := o.active_shape_key_index
          let key_count := ks.length
          let move_steps := key_count - original_index - 1
          let st := [group_a_name, group_b_name].foldl
            (splitPass original_name move_steps) (ks, original_index, [])
          let ks6 := clearValues st.1
          let current_index := ks6.findIdx fun kb => kb.name == original_name
          let ks7 := updateAt ks6 current_index fun kb =>
            { kb with vertex_group := "" }
          let p :=
            if current_index ≠ original_index then
              if current_index < original_index then
                moveDownN ks7 current_index (original_index - current_index)
              else
                moveUpN ks7 current_index (current_index - original_index)
            else (ks7, current_index)
          some ({ o with
                    shape_keys := some p.1
                    active_shape_key_index := original_index },
            ((st.2.2.get? 0).getD "", (st.2.2.get? 1).getD ""))
        else none

/-- operators.py `PU_OT_move_old_shapekeys.poll(context)`: an active mesh
object with a shapekey collection, in Object or Sculpt mode.  (Python's
truthiness chain `obj and obj.type == 'MESH' and obj.data.shape_keys and
obj.mode in {'OBJECT', 'SCULPT'}`.) -/
def PU_OT_move_old_shapekeys_poll (active_object : Option SceneObject) :
    Bool :=
  match active_object with
  | none => false
  | some o =>
    o.type == "MESH" && o.shape_keys.isSome &&
      (o.mode == "OBJECT" || o.mode == "SCULPT")

/-- operators.py `PU_OT_delete_old_shapekeys.poll(context)`: same test,
duplicated in the source. -/
def PU_OT_delete_old_shapekeys_poll (active_object : Option SceneObject) :
    Bool :=
  match active_object with
  | none => false
  | some o =>
    o.type == "MESH" && o.shape_keys.isSome &&
      (o.mode == "OBJECT" || o.mode == "SCULPT")

/-- The scene-level add-on state registered in properties.py that
`PU_OT_create_missing` reads and writes: the target-object pointer, the
stored missing count and the stored missing-name list (each
`PawlygonMissingItem` carries only a name). -/
structure Scene where
  pawlygon_target_object : Option SceneObject
  pawlygon_missing_count : Nat
  pawlygon_missing_list : List String
deriving DecidableEq

/-- Model of `Object.shape_key_add(name=..., from_mix=False)`: append an
empty key block with that name (blend value 0, no mask) — creating the
collection when the object has none — and make it active.  (The host would
uniquify a duplicate name; `PU_OT_create_missing` only calls this for names
checked to be absent, plus an initial `'Basis'` on an empty object.) -/
def shape_key_add (o : SceneObject) (nm : String) : SceneObject :=
  match o.shape_keys with
  | none =>
    { o with
        shape_keys := some [{ name := nm, value := 0, vertex_group := "" }]
        active_shape_key_index := 0 }
  | some ks =>
    { o with
        shape_keys :=
          some (ks ++ [{ name := nm, value := 0, vertex_group := "" }])
        active_shape_key_index := ks.length }

/-- Body of the `for item in missing_list` loop of
`PU_OT_create_missing.execute` on (target object, created count): if the
name is not yet among the key blocks, add an empty shapekey with that name,
set its blend value to 0 (`sk.value = 0.0`) and count it. -/
def createMissingStep (st : SceneObject × Nat) (nm : String) :
    SceneObject × Nat :=
  if ((keyBlocks st.1).map KeyBlock.name).contains nm then st
  else
    let t := shape_key_add st.1 nm
    let t :=
      { t with
          shape_keys := some (updateAt (keyBlocks t)
            ((keyBlocks t).length - 1) fun kb => { kb with value := 0 }) }
    (t, st.2 + 1)

/-- operators.py `PU_OT_create_missing.execute(context)`: ensure a `'Basis'`
key exists when the target has no collection, create one shapekey per
stored missing name that is still absent, clear the stored missing state,
and report the created count.  `none` models the crash on a missing target
object (the poll guards against it). -/
def PU_OT_create_missing_execute (s : Scene) : Option (Scene × Nat) :=
  match s.pawlygon_target_object with
  | none => none
  | some target0 =>
    let target1 :=
      if target0.shape_keys.isNone then shape_key_add target0 "Basis"
      else target0
    let st := s.pawlygon_missing_list.foldl createMissingStep (target1, 0)
    some ({ s with
              pawlygon_target_object := some st.1
              pawlygon_missing_count := 0
              pawlygon_missing_list := [] },
      st.2)

/-- Names the `for item in missing_list` loop of
`PU_OT_create_missing.execute` actually creates, given the names already in
the collection: each missing name still absent, in order, each becoming
present for the names after it. -/
def createMissingNames (existing : List String) :
    List String → List String
  | [] => []
  | m :: ms =>
    if existing.contains m then createMissingNames existing ms
    else m :: createMissingNames (existing ++ [m]) ms

/-- The key blocks present after `PU_OT_create_missing.execute`'s
ensure-basis step: the collection as-is, or a single fresh `'Basis'` block
when the target had no collection. -/
def ensuredBlocks (t : SceneObject) : List KeyBlock :=
  match t.shape_keys with
  | none => [⟨"Basis", 0, ""⟩]
  | some ks => ks

/-! ### Lemmas about the adjacent swap and the move loops -/

theorem swapAdj_cons_succ {α : Type} (x : α) (tl : List α) (n : Nat) :
    swapAdj (x :: tl) (n + 1) = x :: swapAdj tl n := by
  cases tl <;> rfl

theorem length_swapAdj {α : Type} (l : List α) (n : Nat) :
    (swapAdj l n).length = l.length := by
  induction l generalizing n with
  | nil => rfl
  | cons x tl ih =>
    cases n with
    | zero => cases tl <;> rfl
    | succ m => simp [swapAdj_cons_succ, ih]

theorem swapAdj_perm {α : Type} (l : List α) (n : Nat) :
    List.Perm (swapAdj l n) l := by
  induction l generalizing n with
  | nil => exact .refl _
  | cons x tl ih =>
    cases n with
    | zero =>
      cases tl with
      | nil => exact .refl _
      | cons y tl' => exact List.Perm.swap x y tl'
    | succ m =>
      rw [swapAdj_cons_succ]
      exact (ih m).cons x

theorem swapAdj_append {α : Type} (P : List α) (u v : α) (Q : List α) :
    swapAdj (P ++ u :: v :: Q) P.length = P ++ v :: u :: Q := by
  induction P with
  | nil => rfl
  | cons p P ih => simpa [swapAdj_cons_succ] using ih

theorem moveDownLoop_perm {α : Type} (fuel : Nat) (ks : List α) (i : Nat) :
    List.Perm (moveDownLoop fuel ks i).1 ks := by
  induction fuel generalizing ks i with
  | zero => exact .refl _
  | succ n ih =>
    simp only [moveDownLoop]
    split
    · exact (ih _ _).trans (swapAdj_perm ks i)
    · exact .refl _

theorem moveDownLoop_head_tail {α : Type} (fuel : Nat) (ks : List α)
    (i : Nat) (hi : i ≠ 0) :
    (moveDownLoop fuel ks i).1.head? = ks.head? ∧
      List.Perm (moveDownLoop fuel ks i).1.tail ks.tail := by
  induction fuel generalizing ks i with
  | zero => exact ⟨rfl, .refl _⟩
  | succ n ih =>
    simp only [moveDownLoop]
    split
    · rename_i h
      obtain ⟨m, rfl⟩ : ∃ m, i = m + 1 := ⟨i - 1, by omega⟩
      cases ks with
      | nil => simp at h
      | cons x tl =>
        obtain ⟨h1, h2⟩ := ih (swapAdj (x :: tl) (m + 1)) (m + 2) (by omega)
        refine ⟨h1.trans ?_, h2.trans ?_⟩
        · simp [swapAdj_cons_succ]
        · simpa [swapAdj_cons_succ] using swapAdj_perm tl m
    · exact ⟨rfl, .refl _⟩

theorem moveDownUntilEnd_head_tail {α : Type} (ks : List α) (i : Nat)
    (hi : i ≠ 0) :
    (moveDownUntilEnd ks i).1.head? = ks.head? ∧
      List.Perm (moveDownUntilEnd ks i).1.tail ks.tail :=
  moveDownLoop_head_tail _ ks i hi

/-! ### Lemmas about the move-old sweep (utils.py move_old_shapekeys_to_bottom) -/

theorem moveOldFold_count (ns : List Nat) (st : List KeyBlock × Nat × Nat) :
    (ns.foldl moveOldStep st).2.2
      = st.2.2 + (ns.filter fun i => !(i == 0)).length := by
  induction ns generalizing st with
  | nil => simp
  | cons idx tl ih =>
    by_cases h : idx = 0
    · subst h
      simpa [moveOldStep] using ih st
    · simp only [List.foldl_cons, List.filter_cons]
      rw [ih]
      simp [moveOldStep, h]
      omega

theorem moveOldFold_head_tail (ns : List Nat)
    (st : List KeyBlock × Nat × Nat) :
    (ns.foldl moveOldStep st).1.head? = st.1.head? ∧
      List.Perm (ns.foldl moveOldStep st).1.tail st.1.tail := by
  induction ns generalizing st with
  | nil => exact ⟨rfl, .refl _⟩
  | cons idx tl ih =>
    by_cases h : idx = 0
    · subst h
      simpa [moveOldStep] using ih st
    · simp only [List.foldl_cons, moveOldStep, if_neg h]
      obtain ⟨ih1, ih2⟩ := ih (((moveDownUntilEnd st.1 idx).1,
        (moveDownUntilEnd st.1 idx).2, st.2.2 + 1))
      obtain ⟨m1, m2⟩ := moveDownUntilEnd_head_tail st.1 idx h
      exact ⟨ih1.trans m1, ih2.trans m2⟩

theorem enumFrom_old_indices_len (t : List KeyBlock) :
    ∀ n : Nat, n ≠ 0 →
      (((((List.enumFrom n t).filter fun p => isOld p.2).map
        Prod.fst).filter fun i => !(i == 0)).length)
        = (t.filter isOld).length := by
  induction t with
  | nil => intro n _; rfl
  | cons kb tl ih =>
    intro n hn
    rw [List.enumFrom_cons]
    by_cases hk : isOld kb
    · rw [List.filter_cons_of_pos (by simpa using hk), List.map_cons,
        List.filter_cons_of_pos (by simpa using hn),
        List.filter_cons_of_pos hk,
        List.length_cons, List.length_cons, ih (n + 1) (by omega)]
    · rw [List.filter_cons_of_neg (by simpa using hk),
        List.filter_cons_of_neg (by simpa using hk), ih (n + 1) (by omega)]

theorem oldIndices_nonzero_len (ks : List KeyBlock) :
    ((oldIndices ks).filter fun i => !(i == 0)).length
      = (ks.tail.filter isOld).length := by
  cases ks with
  | nil => rfl
  | cons kb tl =>
    unfold oldIndices
    rw [List.enum_cons]
    by_cases hk : isOld kb
    · rw [List.filter_cons_of_pos (by simpa using hk), List.map_cons,
        List.filter_cons_of_neg (by simp)]
      simpa using enumFrom_old_indices_len tl 1 (by omega)
    · rw [List.filter_cons_of_neg (by simpa using hk)]
      simpa using enumFrom_old_indices_len tl 1 (by omega)

theorem length_filter_reverse {α : Type} (p : α → Bool) (l : List α) :
    (l.reverse.filter p).length = (l.filter p).length := by
  induction l with
  | nil => rfl
  | cons x tl ih =>
    by_cases h : p x
    · simp only [List.reverse_cons, List.filter_append, List.length_append,
        List.filter_cons_of_pos h, ih, List.filter_nil, List.length_cons,
        List.length_nil]
    · simp only [List.reverse_cons, List.filter_append, List.length_append,
        List.filter_cons_of_neg h, ih, List.filter_nil, List.length_nil]
      omega

/-! ### Lemmas about the delete-old sweep (utils.py delete_old_shapekeys) -/

theorem eraseIdx_findIdx {α : Type} (p : α → Bool) (ks : List α) :
    ks.eraseIdx (ks.findIdx p) = ks.eraseP p := by
  induction ks with
  | nil => rfl
  | cons x tl ih =>
    by_cases h : p x
    · simp [List.findIdx_cons, h]
    · simp [List.findIdx_cons, h, ih]

theorem oldNames_cons_pos {x : KeyBlock} (tl : List KeyBlock)
    (hx : isOld x = true) : oldNames (x :: tl) = x.name :: oldNames tl := by
  unfold oldNames
  rw [List.filter_cons_of_pos hx, List.map_cons]

theorem oldNames_cons_neg {x : KeyBlock} (tl : List KeyBlock)
    (hx : isOld x = false) : oldNames (x :: tl) = oldNames tl := by
  unfold oldNames
  rw [List.filter_cons_of_neg (by simp [hx])]

theorem mem_oldNames_suffix {m : String} {ks : List KeyBlock}
    (h : m ∈ oldNames ks) : strEndsWith m ".old" = true := by
  rcases List.mem_map.mp h with ⟨kb, hmem, rfl⟩
  exact (List.mem_filter.mp hmem).2

theorem mem_oldNames_contains {m : String} {ks : List KeyBlock}
    (h : m ∈ oldNames ks) : (ks.map KeyBlock.name).contains m = true := by
  rcases List.mem_map.mp h with ⟨kb, hmem, rfl⟩
  exact List.elem_eq_true_of_mem
    (List.mem_map_of_mem KeyBlock.name (List.mem_filter.mp hmem).1)

theorem isOld_of_name_beq {x : KeyBlock} {m : String}
    (h : (x.name == m) = true) (hm : strEndsWith m ".old" = true) :
    isOld x = true := by
  have : x.name = m := by simpa using h
  unfold isOld
  rw [this]
  exact hm

theorem filter_notOld_eraseP {m : String} (hm : strEndsWith m ".old" = true)
    (ks : List KeyBlock) :
    ((ks.eraseP fun kb => kb.name == m).filter fun kb => !(isOld kb))
      = ks.filter fun kb => !(isOld kb) := by
  induction ks with
  | nil => rfl
  | cons x tl ih =>
    by_cases h : (x.name == m) = true
    · rw [List.eraseP_cons_of_pos (p := fun kb : KeyBlock => kb.name == m) h,
        List.filter_cons_of_neg (by simp [isOld_of_name_beq h hm])]
    · rw [List.eraseP_cons_of_neg (p := fun kb : KeyBlock => kb.name == m)
        (by simpa using h)]
      by_cases hx : isOld x
      · rw [List.filter_cons_of_neg (by simp [hx]),
          List.filter_cons_of_neg (by simp [hx]), ih]
      · rw [List.filter_cons_of_pos (by simp [hx]),
          List.filter_cons_of_pos (by simp [hx]), ih]

theorem oldNames_eraseP {m : String} (hm : strEndsWith m ".old" = true)
    (ks : List KeyBlock) :
    oldNames (ks.eraseP fun kb => kb.name == m)
      = (oldNames ks).eraseP fun s => s == m := by
  induction ks with
  | nil => rfl
  | cons x tl ih =>
    by_cases h : (x.name == m) = true
    · rw [List.eraseP_cons_of_pos (p := fun kb : KeyBlock => kb.name == m) h,
        oldNames_cons_pos tl (isOld_of_name_beq h hm),
        List.eraseP_cons_of_pos (p := fun s : String => s == m) h]
    · rw [List.eraseP_cons_of_neg (p := fun kb : KeyBlock => kb.name == m)
        (by simpa using h)]
      by_cases hx : isOld x
      · rw [oldNames_cons_pos _ hx, oldNames_cons_pos _ hx,
          List.eraseP_cons_of_neg (p := fun s : String => s == m) (by simpa using h),
          ih]
      · rw [oldNames_cons_neg _ (by simpa using hx),
          oldNames_cons_neg _ (by simpa using hx), ih]

theorem perm_eraseP_of_cons {m : String} {tl L : List String}
    (h : List.Perm (m :: tl) L) :
    List.Perm tl (L.eraseP fun s => s == m) := by
  have hm : m ∈ L := h.subset (List.mem_cons_self m tl)
  obtain ⟨c, l₁, l₂, _, hpc, hL, hE⟩ :=
    List.exists_of_eraseP (p := fun s : String => s == m) hm (by simp)
  have hcm : c = m := by simpa using hpc
  subst hcm
  rw [hE]
  exact (h.trans (by rw [hL]; exact List.perm_middle)).cons_inv

theorem oldNames_nil_filter {ks : List KeyBlock} (h : oldNames ks = []) :
    ks.filter (fun kb => !(isOld kb)) = ks := by
  have h2 : ks.filter isOld = [] := by
    have := congrArg List.length h
    unfold oldNames at this
    simp only [List.length_map] at this
    exact List.eq_nil_of_length_eq_zero this
  rw [List.filter_eq_self]
  intro kb hkb
  by_contra hold
  have : kb ∈ ks.filter isOld :=
    List.mem_filter.mpr ⟨hkb, by simpa using hold⟩
  rw [h2] at this
  exact absurd this (List.not_mem_nil kb)

theorem oldNames_filter_notOld (ks : List KeyBlock) :
    oldNames (ks.filter fun kb => !(isOld kb)) = [] := by
  unfold oldNames
  rw [List.filter_filter]
  have : ∀ kb : KeyBlock, (isOld kb && !(isOld kb)) = false := by
    intro kb; cases h : isOld kb <;> simp [h]
  simp [this]

theorem deleteOldFold (ns : List String) :
    ∀ (ks : List KeyBlock) (act d : Nat), List.Perm ns (oldNames ks) →
      ((ns.foldl deleteOldStep (ks, act, d)).1
          = ks.filter fun kb => !(isOld kb)) ∧
        (ns.foldl deleteOldStep (ks, act, d)).2.2 = d + ns.length := by
  induction ns with
  | nil =>
    intro ks act d h
    have hnil : oldNames ks = [] := h.symm.eq_nil
    exact ⟨(oldNames_nil_filter hnil).symm, rfl⟩
  | cons m tl ih =>
    intro ks act d h
    have hm : m ∈ oldNames ks := h.subset (List.mem_cons_self m tl)
    have hms : strEndsWith m ".old" = true := mem_oldNames_suffix hm
    have hc : (ks.map KeyBlock.name).contains m = true :=
      mem_oldNames_contains hm
    have hperm : List.Perm tl (oldNames (ks.eraseP fun kb => kb.name == m)) := by
      rw [oldNames_eraseP hms]
      exact perm_eraseP_of_cons h
    obtain ⟨h1, h2⟩ := ih (ks.eraseP fun kb => kb.name == m)
      ((ks.findIdx fun kb => kb.name == m) - 1) (d + 1) hperm
    rw [List.foldl_cons]
    have hstep : deleteOldStep (ks, act, d) m
        = (ks.eraseP fun kb => kb.name == m,
          (ks.findIdx fun kb => kb.name == m) - 1, d + 1) := by
      simp only [deleteOldStep, hc, if_pos, eraseIdx_findIdx]
    rw [hstep]
    refine ⟨by rw [h1, filter_notOld_eraseP hms],
      by rw [h2, List.length_cons]; omega⟩

/-! ### Unfolding equations and summary lemmas for the two sweeps -/

theorem move_old_eq (o : SceneObject) (ks : List KeyBlock)
    (h : o.shape_keys = some ks) :
    move_old_shapekeys_to_bottom (some o)
      = some ({ o with
                  shape_keys := some (((oldIndices ks).reverse).foldl
                    moveOldStep (ks, o.active_shape_key_index, 0)).1
                  active_shape_key_index := (((oldIndices ks).reverse).foldl
                    moveOldStep (ks, o.active_shape_key_index, 0)).2.1 },
        (((oldIndices ks).reverse).foldl moveOldStep
          (ks, o.active_shape_key_index, 0)).2.2) := by
  simp [move_old_shapekeys_to_bottom, h]

theorem delete_old_eq (o : SceneObject) (ks : List KeyBlock)
    (h : o.shape_keys = some ks) :
    delete_old_shapekeys (some o)
      = some ({ o with
                  shape_keys := if (((oldNames ks).reverse).foldl
                      deleteOldStep (ks, o.active_shape_key_index, 0)).1.isEmpty
                    then none
                    else some (((oldNames ks).reverse).foldl
                      deleteOldStep (ks, o.active_shape_key_index, 0)).1
                  active_shape_key_index := (((oldNames ks).reverse).foldl
                    deleteOldStep (ks, o.active_shape_key_index, 0)).2.1 },
        (((oldNames ks).reverse).foldl deleteOldStep
          (ks, o.active_shape_key_index, 0)).2.2) := by
  simp [delete_old_shapekeys, h]

theorem keyBlocks_if_empty (o : SceneObject) (L : List KeyBlock) (a : Nat) :
    keyBlocks { o with
                  shape_keys := if L.isEmpty then none else some L
                  active_shape_key_index := a } = L := by
  cases L <;> simp [keyBlocks]

theorem shape_keys_if_ne (o : SceneObject) (L : List KeyBlock) (a : Nat)
    (h : L ≠ []) :
    ({ o with
         shape_keys := if L.isEmpty then none else some L
         active_shape_key_index := a } : SceneObject).shape_keys
      = some L := by
  cases L with
  | nil => exact absurd rfl h
  | cons x tl => simp

theorem shape_keys_if_nil (o : SceneObject) (L : List KeyBlock) (a : Nat)
    (h : L = []) :
    ({ o with
         shape_keys := if L.isEmpty then none else some L
         active_shape_key_index := a } : SceneObject).shape_keys
      = none := by
  subst h
  simp

theorem moveOldFold_full_count (ks : List KeyBlock) (act : Nat) :
    (((oldIndices ks).reverse).foldl moveOldStep (ks, act, 0)).2.2
      = (ks.tail.filter isOld).length := by
  rw [moveOldFold_count]
  simp only [Nat.zero_add]
  rw [length_filter_reverse, oldIndices_nonzero_len]

theorem deleteOldFold_full (ks : List KeyBlock) (act : Nat) :
    ((((oldNames ks).reverse).foldl deleteOldStep (ks, act, 0)).1
        = ks.filter fun kb => !(isOld kb)) ∧
      (((oldNames ks).reverse).foldl deleteOldStep (ks, act, 0)).2.2
        = (ks.filter isOld).length := by
  obtain ⟨h1, h2⟩ := deleteOldFold ((oldNames ks).reverse) ks act 0
    (List.reverse_perm (oldNames ks))
  refine ⟨h1, ?_⟩
  rw [h2, List.length_reverse]
  unfold oldNames
  rw [List.length_map]
  omega

/-! ### Claim C1 -/

/-- Claim C1, counterexample: on the collection `[Basis, A.old, B, C.old]`,
one move-disposable-to-bottom sweep does not leave the claimed order
`[Basis, B, A.old, C.old]`: the loop pushes each `.old` block all the way to
the last position while processing bottom-up, so the relative order of the
moved blocks is reversed. -/
theorem C1_counterexample :
    (move_old_shapekeys_to_bottom (some
        ⟨some [⟨"Basis", 0, ""⟩, ⟨"A.old", 0, ""⟩, ⟨"B", 0, ""⟩,
          ⟨"C.old", 0, ""⟩], 0, [], "MESH", "OBJECT"⟩)).map
        (fun p => (keyBlocks p.1).map KeyBlock.name)
      ≠ some ["Basis", "B", "A.old", "C.old"] := by
  decide

/-- Claim C1 (amended): for an object whose shapekey collection is, in
order, `[Basis, A.old, B, C.old]`, one invocation of
move-disposable-to-bottom leaves the collection in the order
`[Basis, B, C.old, A.old]` (the non-disposable entries keep their relative
order, the disposable entries end up at the bottom with their relative
order reversed) and reports 2 entries moved. -/
theorem C1_amended_theorem :
    (move_old_shapekeys_to_bottom (some
        ⟨some [⟨"Basis", 0, ""⟩, ⟨"A.old", 0, ""⟩, ⟨"B", 0, ""⟩,
          ⟨"C.old", 0, ""⟩], 0, [], "MESH", "OBJECT"⟩)).map
        (fun p => ((keyBlocks p.1).map KeyBlock.name, p.2))
      = some (["Basis", "B", "C.old", "A.old"], 2) := by
  decide

/-! ### Claim C2 -/

/-- Claim C2, counterexample: for the object with shapekey collection
`[Basis, A.old]`, the second consecutive invocation of
move-disposable-to-bottom returns 1, not 0 — the loop counts every
nonzero-position `.old` entry as moved even when it is already at the
bottom and no position changes. -/
theorem C2_counterexample :
    ((move_old_shapekeys_to_bottom (some
        ⟨some [⟨"Basis", 0, ""⟩, ⟨"A.old", 0, ""⟩], 0, [], "MESH",
          "OBJECT"⟩)).bind fun p =>
      move_old_shapekeys_to_bottom (some p.1)).map Prod.snd
        = some 1 ∧ (1 : Nat) ≠ 0 := by
  decide

/-- Claim C2 (amended): for every object with a shapekey collection, each
invocation of move-disposable-to-bottom returns the number of `'.old'`
entries at nonzero positions — so a second consecutive invocation returns
the same count as the first, which need not be 0 (it is 0 exactly when no
disposable entry sits at a nonzero position). -/
theorem C2_amended_theorem (o o1 : SceneObject) (ks : List KeyBlock)
    (n : Nat) (hks : o.shape_keys = some ks)
    (h : move_old_shapekeys_to_bottom (some o) = some (o1, n)) :
    n = (ks.tail.filter isOld).length ∧
      ∃ o2, move_old_shapekeys_to_bottom (some o1) = some (o2, n) := by
  rw [move_old_eq o ks hks] at h
  injection h with h'
  injection h' with ho1 hn
  have hn1 : n = (ks.tail.filter isOld).length := by
    rw [← hn, moveOldFold_full_count]
  refine ⟨hn1, ?_⟩
  set ks1 := (((oldIndices ks).reverse).foldl moveOldStep
    (ks, o.active_shape_key_index, 0)).1 with hks1
  have hsk1 : o1.shape_keys = some ks1 := by
    rw [← ho1]
  have htail : List.Perm ks1.tail ks.tail :=
    (moveOldFold_head_tail ((oldIndices ks).reverse)
      (ks, o.active_shape_key_index, 0)).2
  have hc2 : (((oldIndices ks1).reverse).foldl moveOldStep
      (ks1, o1.active_shape_key_index, 0)).2.2 = n := by
    rw [moveOldFold_full_count, (htail.filter isOld).length_eq, hn1]
  have h2 : move_old_shapekeys_to_bottom (some o1)
      = some ({ o1 with
                  shape_keys := some (((oldIndices ks1).reverse).foldl
                    moveOldStep (ks1, o1.active_shape_key_index, 0)).1
                  active_shape_key_index := (((oldIndices ks1).reverse).foldl
                    moveOldStep (ks1, o1.active_shape_key_index, 0)).2.1 },
        n) := by
    rw [move_old_eq o1 ks1 hsk1, hc2]
  exact ⟨_, h2⟩

/-! ### Claim C3 -/

/-- Claim C3, counterexample: the delete-disposable sweep does not protect
the base entry.  For the collection `[Basis.old, B]` the position-0 entry
`Basis.old` carries the disposable suffix and is deleted: the result is
`[B]`, so the pre-sweep position-0 entry is no longer present at all —
contradicting the claim that delete-disposable never removes the base
entry. -/
theorem C3_counterexample :
    (delete_old_shapekeys (some
        ⟨some [⟨"Basis.old", 0, ""⟩, ⟨"B", 0, ""⟩], 0, [], "MESH",
          "OBJECT"⟩)).map (fun p => (keyBlocks p.1).map KeyBlock.name)
      = some ["B"] ∧ "Basis.old" ∉ ["B"] := by
  decide

/-- Claim C3 (amended): the move-disposable-to-bottom sweep never relocates
the base entry — after it, the entry at position 0 is the entry that was at
position 0 before, even when its name ends in `'.old'`.  The
delete-disposable sweep, however, does not protect the base entry: it
removes every entry whose name ends in `'.old'`, including one at
position 0 (the surviving collection is exactly the non-disposable
entries, in order). -/
theorem C3_amended_theorem (o : SceneObject) (ks : List KeyBlock)
    (h : o.shape_keys = some ks) :
    (∀ o1 n, move_old_shapekeys_to_bottom (some o) = some (o1, n) →
      (keyBlocks o1).head? = ks.head?) ∧
    (∀ o1 n, delete_old_shapekeys (some o) = some (o1, n) →
      keyBlocks o1 = ks.filter fun kb => !(isOld kb)) := by
  constructor
  · intro o1 n hmv
    rw [move_old_eq o ks h] at hmv
    injection hmv with h'
    injection h' with ho1 _
    rw [← ho1]
    exact (moveOldFold_head_tail ((oldIndices ks).reverse)
      (ks, o.active_shape_key_index, 0)).1
  · intro o1 n hdel
    rw [delete_old_eq o ks h] at hdel
    injection hdel with h'
    injection h' with ho1 _
    rw [← ho1, keyBlocks_if_empty]
    exact (deleteOldFold_full ks o.active_shape_key_index).1

/-- Claim C3, witness for the amended theorem: applied to the concrete
object with collection `[Basis.old, B]` — the move sweep keeps `Basis.old`
at position 0, the delete sweep leaves exactly the non-disposable `[B]`. -/
theorem C3_amended_witness :
    ((keyBlocks ⟨some [⟨"Basis.old", 0, ""⟩, ⟨"B", 0, ""⟩], 0, [], "MESH",
        "OBJECT"⟩).head?
      = [(⟨"Basis.old", 0, ""⟩ : KeyBlock), ⟨"B", 0, ""⟩].head?) ∧
    (keyBlocks ⟨some [⟨"B", 0, ""⟩], 0, [], "MESH", "OBJECT"⟩
      = [(⟨"Basis.old", 0, ""⟩ : KeyBlock), ⟨"B", 0, ""⟩].filter
          fun kb => !(isOld kb)) :=
  ⟨(C3_amended_theorem
      ⟨some [⟨"Basis.old", 0, ""⟩, ⟨"B", 0, ""⟩], 0, [], "MESH", "OBJECT"⟩
      [⟨"Basis.old", 0, ""⟩, ⟨"B", 0, ""⟩] rfl).1
      ⟨some [⟨"Basis.old", 0, ""⟩, ⟨"B", 0, ""⟩], 0, [], "MESH", "OBJECT"⟩
      0 (by decide),
    (C3_amended_theorem
      ⟨some [⟨"Basis.old", 0, ""⟩, ⟨"B", 0, ""⟩], 0, [], "MESH", "OBJECT"⟩
      [⟨"Basis.old", 0, ""⟩, ⟨"B", 0, ""⟩] rfl).2
      ⟨some [⟨"B", 0, ""⟩], 0, [], "MESH", "OBJECT"⟩
      1 (by decide)⟩

/-- Claim C2, witness for the amended theorem: applied to the concrete
object with collection `[Basis, A.old]`, whose first sweep returns 1. -/
theorem C2_amended_witness :
    (1 : Nat) = ([(⟨"Basis", 0, ""⟩ : KeyBlock), ⟨"A.old", 0, ""⟩].tail.filter
        isOld).length ∧
      ∃ o2, move_old_shapekeys_to_bottom (some
        ⟨some [⟨"Basis", 0, ""⟩, ⟨"A.old", 0, ""⟩], 1, [], "MESH",
          "OBJECT"⟩) = some (o2, 1) :=
  C2_amended_theorem
    ⟨some [⟨"Basis", 0, ""⟩, ⟨"A.old", 0, ""⟩], 0, [], "MESH", "OBJECT"⟩
    ⟨some [⟨"Basis", 0, ""⟩, ⟨"A.old", 0, ""⟩], 1, [], "MESH", "OBJECT"⟩
    [⟨"Basis", 0, ""⟩, ⟨"A.old", 0, ""⟩] 1 rfl (by decide)

/-! ### Claim C5 -/

/-- Claim C5: `get_missing_shapekeys` returns exactly those expected names
that are not among the object's current shapekey names, in the expected
list's original order (it is the filter of the expected list, which keeps
order), and mutates nothing (the embedding returns only the name list, no
object state); when there is no object or no shapekey collection it returns
every expected name, in order. -/
theorem C5_theorem (obj : Option SceneObject) (expected : List String) :
    ((obj = none ∨ ∃ o, obj = some o ∧ o.shape_keys = none) →
      get_missing_shapekeys obj expected = expected) ∧
    (∀ o ks, obj = some o → o.shape_keys = some ks →
      get_missing_shapekeys obj expected
        = expected.filter fun nm => !((ks.map KeyBlock.name).contains nm)) := by
  constructor
  · rintro (rfl | ⟨o, rfl, hsk⟩)
    · rfl
    · simp [get_missing_shapekeys, hsk]
  · rintro o ks rfl hsk
    simp [get_missing_shapekeys, hsk]

/-- Claim C5, witness: no collection gives back the whole expected list;
with collection `[Basis, Smile]` the expected list `[Smile, Frown, Wink]`
filters to its absent names `[Frown, Wink]`, in order. -/
theorem C5_witness :
    get_missing_shapekeys none ["Smile", "Frown"] = ["Smile", "Frown"] ∧
    get_missing_shapekeys
        (some ⟨some [⟨"Basis", 0, ""⟩, ⟨"Smile", 0, ""⟩], 0, [], "MESH",
          "OBJECT"⟩) ["Smile", "Frown", "Wink"]
      = ["Smile", "Frown", "Wink"].filter
          (fun nm => !(([(⟨"Basis", 0, ""⟩ : KeyBlock),
            ⟨"Smile", 0, ""⟩].map KeyBlock.name).contains nm)) ∧
    ["Smile", "Frown", "Wink"].filter
        (fun nm => !(([(⟨"Basis", 0, ""⟩ : KeyBlock),
          ⟨"Smile", 0, ""⟩].map KeyBlock.name).contains nm))
      = ["Frown", "Wink"] :=
  ⟨(C5_theorem none ["Smile", "Frown"]).1 (Or.inl rfl),
    (C5_theorem _ _).2 _ [⟨"Basis", 0, ""⟩, ⟨"Smile", 0, ""⟩] rfl rfl,
    by decide⟩

/-! ### Claim C6 -/

/-- The no-collection sentinel branch of `delete_old_shapekeys`. -/
theorem delete_old_none (o1 : SceneObject) (h : o1.shape_keys = none) :
    delete_old_shapekeys (some o1) = none := by
  simp [delete_old_shapekeys, h]

/-- A delete sweep on a collection with no disposable names is reported as
removing zero entries. -/
theorem delete_old_second (o1 : SceneObject) (L : List KeyBlock)
    (hsk : o1.shape_keys = some L) (hL : oldNames L = []) :
    ∃ o2, delete_old_shapekeys (some o1) = some (o2, 0) := by
  have h2 := delete_old_eq o1 L hsk
  rw [hL] at h2
  simp only [List.reverse_nil, List.foldl_nil] at h2
  exact ⟨_, h2⟩

/-- Claim C6: `delete_old_shapekeys` removes every entry whose name ends
with `'.old'` and returns the number removed; afterwards no entry with the
disposable suffix remains at all (in particular none outside position 0);
an immediately repeated invocation deletes zero entries — it reports a
zero count when any entry survived, and when the sweep removed every entry
the host has freed the collection, so the repeat returns the
no-collection sentinel (which likewise deletes nothing); and an object
with no shapekey collection yields the `none` sentinel, distinct from
zero. -/
theorem C6_theorem (o : SceneObject) :
    (o.shape_keys = none → delete_old_shapekeys (some o) = none) ∧
    (∀ ks, o.shape_keys = some ks →
      ∃ o1, delete_old_shapekeys (some o)
          = some (o1, (ks.filter isOld).length) ∧
        keyBlocks o1 = ks.filter (fun kb => !(isOld kb)) ∧
        (∀ kb ∈ keyBlocks o1, isOld kb = false) ∧
        (ks.filter (fun kb => !(isOld kb)) ≠ [] →
          ∃ o2, delete_old_shapekeys (some o1) = some (o2, 0)) ∧
        (ks.filter (fun kb => !(isOld kb)) = [] →
          delete_old_shapekeys (some o1) = none)) := by
  constructor
  · intro h
    simp [delete_old_shapekeys, h]
  · intro ks h
    obtain ⟨h1, h2⟩ := deleteOldFold_full ks o.active_shape_key_index
    have hmain : delete_old_shapekeys (some o)
        = some ({ o with
                    shape_keys := if (ks.filter fun kb =>
                        !(isOld kb)).isEmpty then none
                      else some (ks.filter fun kb => !(isOld kb))
                    active_shape_key_index := (((oldNames ks).reverse).foldl
                      deleteOldStep (ks, o.active_shape_key_index, 0)).2.1 },
          (ks.filter isOld).length) := by
      rw [delete_old_eq o ks h, h1, h2]
    refine ⟨_, hmain, keyBlocks_if_empty o _ _, ?_, ?_, ?_⟩
    · intro kb hkb
      rw [keyBlocks_if_empty] at hkb
      simpa using (List.mem_filter.mp hkb).2
    · intro hne
      exact delete_old_second _ (ks.filter fun kb => !(isOld kb))
        (shape_keys_if_ne o _ _ hne) (oldNames_filter_notOld ks)
    · intro hnil
      exact delete_old_none _ (shape_keys_if_nil o
        (ks.filter fun kb => !(isOld kb))
        ((((oldNames ks).reverse).foldl deleteOldStep
          (ks, o.active_shape_key_index, 0)).2.1) hnil)

/-- Claim C6, witness: an object with no collection yields `none`; on
`[Basis, A.old, B, C.old]` the sweep deletes 2 entries, leaves
`[Basis, B]` with no disposable entry, and a repetition deletes zero; on
the all-disposable `[A.old]` the sweep empties (and so frees) the
collection, and the repetition hits the sentinel branch. -/
theorem C6_witness :
    delete_old_shapekeys (some ⟨none, 0, [], "MESH", "OBJECT"⟩) = none ∧
    (∃ o1, delete_old_shapekeys (some
          ⟨some [⟨"Basis", 0, ""⟩, ⟨"A.old", 0, ""⟩, ⟨"B", 0, ""⟩,
            ⟨"C.old", 0, ""⟩], 0, [], "MESH", "OBJECT"⟩)
        = some (o1, ([(⟨"Basis", 0, ""⟩ : KeyBlock), ⟨"A.old", 0, ""⟩,
            ⟨"B", 0, ""⟩, ⟨"C.old", 0, ""⟩].filter isOld).length) ∧
      keyBlocks o1 = [(⟨"Basis", 0, ""⟩ : KeyBlock), ⟨"A.old", 0, ""⟩,
          ⟨"B", 0, ""⟩, ⟨"C.old", 0, ""⟩].filter (fun kb => !(isOld kb)) ∧
      (∀ kb ∈ keyBlocks o1, isOld kb = false) ∧
      ([(⟨"Basis", 0, ""⟩ : KeyBlock), ⟨"A.old", 0, ""⟩, ⟨"B", 0, ""⟩,
          ⟨"C.old", 0, ""⟩].filter (fun kb => !(isOld kb)) ≠ [] →
        ∃ o2, delete_old_shapekeys (some o1) = some (o2, 0)) ∧
      ([(⟨"Basis", 0, ""⟩ : KeyBlock), ⟨"A.old", 0, ""⟩, ⟨"B", 0, ""⟩,
          ⟨"C.old", 0, ""⟩].filter (fun kb => !(isOld kb)) = [] →
        delete_old_shapekeys (some o1) = none)) ∧
    (∃ o1, delete_old_shapekeys (some
          ⟨some [⟨"A.old", 0, ""⟩], 0, [], "MESH", "OBJECT"⟩)
        = some (o1, ([(⟨"A.old", 0, ""⟩ : KeyBlock)].filter isOld).length) ∧
      keyBlocks o1 = [(⟨"A.old", 0, ""⟩ : KeyBlock)].filter
          (fun kb => !(isOld kb)) ∧
      (∀ kb ∈ keyBlocks o1, isOld kb = false) ∧
      ([(⟨"A.old", 0, ""⟩ : KeyBlock)].filter (fun kb => !(isOld kb)) ≠ []
        → ∃ o2, delete_old_shapekeys (some o1) = some (o2, 0)) ∧
      ([(⟨"A.old", 0, ""⟩ : KeyBlock)].filter (fun kb => !(isOld kb)) = []
        → delete_old_shapekeys (some o1) = none)) :=
  ⟨(C6_theorem ⟨none, 0, [], "MESH", "OBJECT"⟩).1 rfl,
    (C6_theorem ⟨some [⟨"Basis", 0, ""⟩, ⟨"A.old", 0, ""⟩, ⟨"B", 0, ""⟩,
        ⟨"C.old", 0, ""⟩], 0, [], "MESH", "OBJECT"⟩).2
      [⟨"Basis", 0, ""⟩, ⟨"A.old", 0, ""⟩, ⟨"B", 0, ""⟩, ⟨"C.old", 0, ""⟩]
      rfl,
    (C6_theorem ⟨some [⟨"A.old", 0, ""⟩], 0, [], "MESH", "OBJECT"⟩).2
      [⟨"A.old", 0, ""⟩] rfl⟩

/-! ### Claim C9 -/

/-- Claim C9: if any precondition of `split_shapekey_by_groups` is violated
(no object, no shapekey collection, no active shapekey, or either named
vertex group absent), the operation returns the failure signal `none` — and
since the embedding only ever returns a mutated object inside `some`, a
`none` result carries no mutation: the object and its shapekey collection
are untouched. -/
theorem C9_theorem (obj : Option SceneObject) (ga gb : String)
    (h : obj = none ∨ ∃ o, obj = some o ∧
      (o.shape_keys = none ∨
        (∃ ks, o.shape_keys = some ks ∧
          ks.get? o.active_shape_key_index = none) ∨
        o.vertex_groups.contains ga = false ∨
        o.vertex_groups.contains gb = false)) :
    split_shapekey_by_groups obj ga gb = none := by
  rcases h with rfl | ⟨o, rfl, hc⟩
  · rfl
  rcases hc with hsk | ⟨ks, hsk, hact⟩ | hga | hgb
  · simp [split_shapekey_by_groups, hsk]
  · have hact' : ks[o.active_shape_key_index]? = none := by simpa using hact
    simp [split_shapekey_by_groups, hsk, hact']
  · rcases h1 : o.shape_keys with _ | ks
    · simp [split_shapekey_by_groups, h1]
    · rcases h2 : ks.get? o.active_shape_key_index with _ | sk
      · have h2' : ks[o.active_shape_key_index]? = none := by simpa using h2
        simp [split_shapekey_by_groups, h1, h2']
      · have h2' : ks[o.active_shape_key_index]? = some sk := by
          simpa using h2
        have hga' : ga ∉ o.vertex_groups := by simpa using hga
        simp [split_shapekey_by_groups, h1, h2', hga']
  · rcases h1 : o.shape_keys with _ | ks
    · simp [split_shapekey_by_groups, h1]
    · rcases h2 : ks.get? o.active_shape_key_index with _ | sk
      · have h2' : ks[o.active_shape_key_index]? = none := by simpa using h2
        simp [split_shapekey_by_groups, h1, h2']
      · have h2' : ks[o.active_shape_key_index]? = some sk := by
          simpa using h2
        have hgb' : gb ∉ o.vertex_groups := by simpa using hgb
        simp [split_shapekey_by_groups, h1, h2', hgb']

/-- Claim C9, witness: an object that has an active shapekey but lacks
vertex group `"L"` makes the split return `none`. -/
theorem C9_witness :
    split_shapekey_by_groups (some ⟨some [⟨"Basis", 0, ""⟩,
        ⟨"Smile", 0, ""⟩], 1, ["R"], "MESH", "OBJECT"⟩) "L" "R" = none :=
  C9_theorem _ "L" "R" (Or.inr ⟨_, rfl, Or.inr (Or.inr (Or.inl (by decide)))⟩)

/-! ### Claim C10 -/

/-- Claim C10: whenever the move-old or delete-old operator's poll
precondition holds (an active mesh object whose data has a shapekey
collection, in an allowed mode), the underlying utility returns an integer
count wrapped in `some` and never the `none` sentinel — so the
`moved > 0` / `deleted > 0` comparisons in `execute` are always integer
comparisons and the None-versus-integer branch is unreachable. -/
theorem C10_theorem (obj : Option SceneObject) :
    (PU_OT_move_old_shapekeys_poll obj = true →
      ∃ r, move_old_shapekeys_to_bottom obj = some r) ∧
    (PU_OT_delete_old_shapekeys_poll obj = true →
      ∃ r, delete_old_shapekeys obj = some r) := by
  constructor
  · intro h
    cases obj with
    | none => simp [PU_OT_move_old_shapekeys_poll] at h
    | some o =>
      simp only [PU_OT_move_old_shapekeys_poll, Bool.and_eq_true] at h
      rcases Option.isSome_iff_exists.mp h.1.2 with ⟨ks, hks⟩
      exact ⟨_, move_old_eq o ks hks⟩
  · intro h
    cases obj with
    | none => simp [PU_OT_delete_old_shapekeys_poll] at h
    | some o =>
      simp only [PU_OT_delete_old_shapekeys_poll, Bool.and_eq_true] at h
      rcases Option.isSome_iff_exists.mp h.1.2 with ⟨ks, hks⟩
      exact ⟨_, delete_old_eq o ks hks⟩

/-- Claim C10, witness: a concrete mesh object in Object mode with a
shapekey collection passes both polls and both utilities return `some`. -/
theorem C10_witness :
    PU_OT_move_old_shapekeys_poll (some ⟨some [⟨"Basis", 0, ""⟩], 0, [],
        "MESH", "OBJECT"⟩) = true ∧
    (∃ r, move_old_shapekeys_to_bottom (some ⟨some [⟨"Basis", 0, ""⟩], 0,
        [], "MESH", "OBJECT"⟩) = some r) ∧
    PU_OT_delete_old_shapekeys_poll (some ⟨some [⟨"Basis", 0, ""⟩], 0, [],
        "MESH", "OBJECT"⟩) = true ∧
    (∃ r, delete_old_shapekeys (some ⟨some [⟨"Basis", 0, ""⟩], 0, [],
        "MESH", "OBJECT"⟩) = some r) :=
  ⟨by decide, (C10_theorem _).1 (by decide), by decide,
    (C10_theorem _).2 (by decide)⟩

/-! ### Lemmas about the create-missing operator (operators.py) -/

theorem updateAt_cons_succ (x : KeyBlock) (l : List KeyBlock) (n : Nat)
    (f : KeyBlock → KeyBlock) :
    updateAt (x :: l) (n + 1) f = x :: updateAt l n f := by
  cases h : l[n]? <;> simp [updateAt, h]

theorem updateAt_append_cons (P : List KeyBlock) (c : KeyBlock)
    (Q : List KeyBlock) (f : KeyBlock → KeyBlock) :
    updateAt (P ++ c :: Q) P.length f = P ++ f c :: Q := by
  induction P with
  | nil => simp [updateAt]
  | cons p P ih => simp [updateAt_cons_succ, ih]

theorem shape_key_add_some (t : SceneObject) (base : List KeyBlock)
    (h : t.shape_keys = some base) (nm : String) :
    shape_key_add t nm
      = { t with
            shape_keys := some (base ++ [⟨nm, 0, ""⟩])
            active_shape_key_index := base.length } := by
  simp [shape_key_add, h]

theorem createMissingFold (ms : List String) :
    ∀ (t : SceneObject) (base : List KeyBlock) (c : Nat),
      t.shape_keys = some base →
      ((ms.foldl createMissingStep (t, c)).1.shape_keys
          = some (base ++ (createMissingNames (base.map KeyBlock.name)
            ms).map fun nm => ⟨nm, 0, ""⟩)) ∧
        (ms.foldl createMissingStep (t, c)).2
          = c + (createMissingNames (base.map KeyBlock.name) ms).length := by
  induction ms with
  | nil =>
    intro t base c h
    simp [createMissingNames, h]
  | cons m ms ih =>
    intro t base c h
    rw [List.foldl_cons]
    have hkb : (keyBlocks t).map KeyBlock.name = base.map KeyBlock.name := by
      simp only [keyBlocks, h, Option.getD_some]
    cases hm : (base.map KeyBlock.name).contains m with
    | true =>
      have hstep : createMissingStep (t, c) m = (t, c) := by
        simp only [createMissingStep]
        rw [hkb, hm, if_pos rfl]
      rw [hstep]
      obtain ⟨f1, f2⟩ := ih t base c h
      rw [show createMissingNames (base.map KeyBlock.name) (m :: ms)
        = createMissingNames (base.map KeyBlock.name) ms from by
          simp only [createMissingNames]
          rw [hm, if_pos rfl]]
      exact ⟨f1, f2⟩
    | false =>
      have hstep : createMissingStep (t, c) m
          = ({ t with
                 shape_keys := some (base ++ [⟨m, 0, ""⟩])
                 active_shape_key_index := base.length }, c + 1) := by
        simp only [createMissingStep]
        rw [hkb, hm, if_neg (by simp), shape_key_add_some t base h m]
        simp only [keyBlocks, Option.getD_some, List.length_append,
          List.length_cons, List.length_nil, Nat.zero_add,
          Nat.add_sub_cancel]
        rw [updateAt_append_cons base (⟨m, 0, ""⟩ : KeyBlock) []]
      rw [hstep]
      obtain ⟨f1, f2⟩ := ih
        { t with
            shape_keys := some (base ++ [⟨m, 0, ""⟩])
            active_shape_key_index := base.length }
        (base ++ [⟨m, 0, ""⟩]) (c + 1) rfl
      rw [show createMissingNames (base.map KeyBlock.name) (m :: ms)
        = m :: createMissingNames (base.map KeyBlock.name ++ [m]) ms from by
          simp only [createMissingNames]
          rw [hm, if_neg (by simp)]]
      constructor
      · rw [f1]
        simp [List.map_append]
      · rw [f2]
        simp only [List.map_append, List.map_cons, List.map_nil,
          List.length_cons]
        omega

/-! ### Claim C7 -/

/-- Claim C7: `PU_OT_create_missing.execute` first ensures a base shapekey
exists (creating one named `'Basis'` exactly when the target has no
collection — `ensuredBlocks`), then creates one new shapekey per stored
missing name, skipping any name already present in the collection at
creation time (`createMissingNames`), each created block with blend value
0 and no mask, and reports the count actually created. -/
theorem C7_theorem (s : Scene) (t : SceneObject)
    (h : s.pawlygon_target_object = some t) :
    ∃ s' c, PU_OT_create_missing_execute s = some (s', c) ∧
      (∃ t', s'.pawlygon_target_object = some t' ∧
        t'.shape_keys = some (ensuredBlocks t ++
          (createMissingNames ((ensuredBlocks t).map KeyBlock.name)
            s.pawlygon_missing_list).map fun nm => ⟨nm, 0, ""⟩)) ∧
      c = (createMissingNames ((ensuredBlocks t).map KeyBlock.name)
        s.pawlygon_missing_list).length := by
  have ht1sk : (if t.shape_keys.isNone then shape_key_add t "Basis"
      else t).shape_keys = some (ensuredBlocks t) := by
    cases hsk : t.shape_keys with
    | none => simp [hsk, shape_key_add, ensuredBlocks]
    | some ks => simp [hsk, ensuredBlocks]
  obtain ⟨f1, f2⟩ := createMissingFold s.pawlygon_missing_list
    (if t.shape_keys.isNone then shape_key_add t "Basis" else t)
    (ensuredBlocks t) 0 ht1sk
  simp only [PU_OT_create_missing_execute, h]
  refine ⟨_, _, rfl, ⟨_, rfl, f1⟩, ?_⟩
  simpa using f2

/-- Claim C7, witness: a target with no shapekey collection and stored
missing list `["Basis", "Wink"]` — the ensure step creates `Basis`, the
loop then skips `Basis` (already present by creation time) and creates
only `Wink` with blend value 0, reporting 1. -/
theorem C7_witness :
    (∃ s' c, PU_OT_create_missing_execute
        ⟨some ⟨none, 0, [], "MESH", "OBJECT"⟩, 2, ["Basis", "Wink"]⟩
        = some (s', c) ∧
      (∃ t', s'.pawlygon_target_object = some t' ∧
        t'.shape_keys = some (ensuredBlocks ⟨none, 0, [], "MESH", "OBJECT"⟩
          ++ (createMissingNames ((ensuredBlocks
            ⟨none, 0, [], "MESH", "OBJECT"⟩).map KeyBlock.name)
            ["Basis", "Wink"]).map fun nm => ⟨nm, 0, ""⟩)) ∧
      c = (createMissingNames ((ensuredBlocks
        ⟨none, 0, [], "MESH", "OBJECT"⟩).map KeyBlock.name)
        ["Basis", "Wink"]).length) ∧
    (createMissingNames ((ensuredBlocks
      ⟨none, 0, [], "MESH", "OBJECT"⟩).map KeyBlock.name)
      ["Basis", "Wink"]) = ["Wink"] :=
  ⟨C7_theorem ⟨some ⟨none, 0, [], "MESH", "OBJECT"⟩, 2, ["Basis", "Wink"]⟩
    ⟨none, 0, [], "MESH", "OBJECT"⟩ rfl, by decide⟩

/-! ### Claim C8 -/

/-- Claim C8: after every `PU_OT_create_missing.execute` invocation the
stored missing-name state is cleared (count 0, list empty), so an
immediately repeated invocation creates zero additional shapekeys. -/
theorem C8_theorem (s s' : Scene) (c : Nat)
    (h : PU_OT_create_missing_execute s = some (s', c)) :
    s'.pawlygon_missing_count = 0 ∧ s'.pawlygon_missing_list = [] ∧
      ∃ s'', PU_OT_create_missing_execute s' = some (s'', 0) := by
  cases hst : s.pawlygon_target_object with
  | none => simp [PU_OT_create_missing_execute, hst] at h
  | some t =>
    simp only [PU_OT_create_missing_execute, hst] at h
    injection h with h'
    injection h' with hs' hc
    rw [← hs']
    exact ⟨rfl, rfl, ⟨_, rfl⟩⟩

/-- Claim C8, witness: a concrete scene whose execute pass creates `Wink`;
afterwards the stored state is cleared and a repeat creates 0. -/
theorem C8_witness :
    (⟨some ⟨some [⟨"Basis", 0, ""⟩, ⟨"Wink", 0, ""⟩], 1, [], "MESH",
        "OBJECT"⟩, 0, []⟩ : Scene).pawlygon_missing_count = 0 ∧
    (⟨some ⟨some [⟨"Basis", 0, ""⟩, ⟨"Wink", 0, ""⟩], 1, [], "MESH",
        "OBJECT"⟩, 0, []⟩ : Scene).pawlygon_missing_list = [] ∧
    ∃ s'', PU_OT_create_missing_execute
        ⟨some ⟨some [⟨"Basis", 0, ""⟩, ⟨"Wink", 0, ""⟩], 1, [], "MESH",
          "OBJECT"⟩, 0, []⟩ = some (s'', 0) :=
  C8_theorem
    ⟨some ⟨some [⟨"Basis", 0, ""⟩], 0, [], "MESH", "OBJECT"⟩, 1, ["Wink"]⟩
    ⟨some ⟨some [⟨"Basis", 0, ""⟩, ⟨"Wink", 0, ""⟩], 1, [], "MESH",
      "OBJECT"⟩, 0, []⟩ 1 (by decide)

/-! ### Lemmas about the split operation (utils.py split_shapekey_by_groups) -/

theorem clearValues_nil : clearValues [] = [] := rfl

theorem clearValues_cons (x : KeyBlock) (l : List KeyBlock) :
    clearValues (x :: l) = { x with value := 0 } :: clearValues l := rfl

theorem clearValues_append (P Q : List KeyBlock) :
    clearValues (P ++ Q) = clearValues P ++ clearValues Q := by
  simp [clearValues]

theorem length_clearValues (l : List KeyBlock) :
    (clearValues l).length = l.length := by
  simp [clearValues]

theorem clearValues_idem (l : List KeyBlock) :
    clearValues (clearValues l) = clearValues l := by
  induction l with
  | nil => rfl
  | cons x tl ih => simp [clearValues_cons, ih]

theorem names_clearValues (l : List KeyBlock) :
    (clearValues l).map KeyBlock.name = l.map KeyBlock.name := by
  induction l with
  | nil => rfl
  | cons x tl ih => simp [clearValues_cons, ih]

theorem get?_append_cons {α : Type} (P : List α) (c : α) (Q : List α) :
    (P ++ c :: Q).get? P.length = some c := by
  induction P with
  | nil => rfl
  | cons p P ih => simpa using ih

theorem forall_name_ne_of_not_mem {P : List KeyBlock} {nm : String}
    (h : nm ∉ P.map KeyBlock.name) : ∀ x ∈ P, x.name ≠ nm :=
  fun x hx hc => h (List.mem_map.mpr ⟨x, hx, hc⟩)

theorem contains_eq_false_of_not_mem {α : Type} [BEq α] [LawfulBEq α]
    {l : List α} {a : α} (h : a ∉ l) : l.contains a = false := by
  cases hc : l.elem a
  · exact hc
  · exact absurd (List.mem_of_elem_eq_true hc) h

theorem eraseIdx_append_singleton {α : Type} (L : List α) (x : α) :
    (L ++ [x]).eraseIdx L.length = L := by
  induction L with
  | nil => rfl
  | cons p L ih => simp [ih]

theorem uniquifyName_not_mem {taken : List String} {base : String}
    (h : taken.contains base = false) :
    uniquifyName taken base = base := by
  simp only [uniquifyName]
  rw [h]
  simp

theorem findIdx_name_append (P : List KeyBlock) (c : KeyBlock)
    (Q : List KeyBlock) (nm : String) (hc : c.name = nm)
    (hP : ∀ x ∈ P, x.name ≠ nm) :
    (P ++ c :: Q).findIdx (fun kb => kb.name == nm) = P.length := by
  induction P with
  | nil => simp [List.findIdx_cons, hc]
  | cons p P ih =>
    have hp : (p.name == nm) = false := by
      simpa using hP p (List.mem_cons_self p P)
    simp [List.findIdx_cons, hp,
      ih fun x hx => hP x (List.mem_cons_of_mem p hx)]

theorem moveUpN_shape {α : Type} (A : List α) (c : α) (B : List α) :
    ∀ (C : List α) (x : α),
      moveUpN (A ++ c :: B ++ x :: C) (A.length + 1 + B.length) B.length
        = (A ++ c :: x :: B ++ C, A.length + 1) := by
  induction B using List.reverseRecOn with
  | nil =>
    intro C x
    simp [moveUpN]
  | append_singleton B₀ b ih =>
    intro C x
    have hlen : (B₀ ++ [b]).length = B₀.length + 1 := by simp
    rw [hlen]
    have hne : ¬(A.length + 1 + (B₀.length + 1) = 0) := by omega
    simp only [moveUpN, moveActiveUp, if_neg hne]
    have hidx : A.length + 1 + (B₀.length + 1) - 1
        = (A ++ c :: B₀).length := by
      simp only [List.length_append, List.length_cons]
      omega
    rw [hidx]
    have hlist : A ++ c :: (B₀ ++ [b]) ++ x :: C
        = (A ++ c :: B₀) ++ b :: x :: C := by
      simp
    rw [hlist, swapAdj_append]
    have h2 : (A ++ c :: B₀) ++ x :: b :: C
        = A ++ c :: B₀ ++ x :: b :: C := by
      simp
    have h3 : (A ++ c :: B₀).length = A.length + 1 + B₀.length := by
      simp only [List.length_append, List.length_cons]
      omega
    rw [h2, h3, ih (b :: C) x]
    simp

theorem moveUpN_splitShape {α : Type} (P' : List α) (X : α) (M' R' : List α)
    (K : α) :
    moveUpN ((P' ++ X :: (M' ++ R')) ++ [K])
        ((P' ++ X :: (M' ++ R')).length) R'.length
      = (P' ++ X :: (M' ++ K :: R'), P'.length + 1 + M'.length) := by
  rcases M'.eq_nil_or_concat with rfl | ⟨M₀, m, rfl⟩
  · rw [List.nil_append]
    have en : (P' ++ X :: R').length = P'.length + 1 + R'.length := by
      simp only [List.length_append, List.length_cons]
      omega
    rw [en, moveUpN_shape P' X R' [] K]
    simp
  · simp only [List.concat_eq_append]
    have el : (P' ++ X :: ((M₀ ++ [m]) ++ R')) ++ [K]
        = ((P' ++ X :: M₀) ++ m :: R') ++ K :: ([] : List α) := by
      simp
    have en : (P' ++ X :: ((M₀ ++ [m]) ++ R')).length
        = (P' ++ X :: M₀).length + 1 + R'.length := by
      simp only [List.length_append, List.length_cons, List.length_nil]
      omega
    rw [el, en, moveUpN_shape (P' ++ X :: M₀) m R' [] K]
    rw [Prod.mk.injEq]
    constructor
    · simp
    · simp only [List.length_append, List.length_cons, List.length_nil]
      omega

theorem splitPass_eq (P M R : List KeyBlock) (s : KeyBlock) (gname : String)
    (hP : ∀ x ∈ P, x.name ≠ s.name)
    (hfresh : (P.map KeyBlock.name ++ s.name :: (M.map KeyBlock.name
      ++ R.map KeyBlock.name)).contains (s.name ++ gname) = false)
    (act : Nat) (cr : List String) :
    splitPass s.name R.length (P ++ s :: M ++ R, act, cr) gname
      = (clearValues P ++ ⟨s.name, 1, gname⟩ :: clearValues M
          ++ ⟨s.name ++ gname, 0, ""⟩ :: clearValues R,
        P.length + 1 + M.length, cr ++ [s.name ++ gname]) := by
  simp only [splitPass]
  have h0 : clearValues (P ++ s :: M ++ R)
      = clearValues P ++ ({ s with value := 0 })
          :: (clearValues M ++ clearValues R) := by
    simp [clearValues_append, clearValues_cons]
  rw [h0]
  have hP' : ∀ x ∈ clearValues P, x.name ≠ s.name := by
    intro x hx
    simp only [clearValues] at hx
    rcases List.mem_map.mp hx with ⟨y, hy, rfl⟩
    exact hP y hy
  rw [findIdx_name_append (clearValues P) ({ s with value := 0 })
    (clearValues M ++ clearValues R) s.name rfl hP']
  rw [updateAt_append_cons (clearValues P) ({ s with value := 0 })
    (clearValues M ++ clearValues R)]
  have hfc : (fun kb => ({ kb with vertex_group := gname, value := 1 }
        : KeyBlock)) ({ s with value := 0 } : KeyBlock)
      = (⟨s.name, 1, gname⟩ : KeyBlock) := rfl
  simp only [hfc]
  have hlen1 : ∀ L : List KeyBlock, (L ++ [newMixKey]).length - 1
      = L.length := by
    intro L
    simp
  rw [hlen1]
  rw [eraseIdx_append_singleton]
  have htaken : (clearValues P ++ (⟨s.name, 1, gname⟩ : KeyBlock)
        :: (clearValues M ++ clearValues R)).map KeyBlock.name
      = P.map KeyBlock.name ++ s.name :: (M.map KeyBlock.name
          ++ R.map KeyBlock.name) := by
    simp only [List.map_append, List.map_cons, names_clearValues]
  rw [htaken, uniquifyName_not_mem hfresh]
  rw [updateAt_append_cons _ newMixKey []]
  have hrn : (fun kb => ({ kb with name := s.name ++ gname } : KeyBlock))
      newMixKey = (⟨s.name ++ gname, 0, ""⟩ : KeyBlock) := rfl
  simp only [hrn]
  rw [show R.length = (clearValues R).length from
    (length_clearValues R).symm]
  rw [moveUpN_splitShape (clearValues P) (⟨s.name, 1, gname⟩ : KeyBlock)
    (clearValues M) (clearValues R) (⟨s.name ++ gname, 0, ""⟩ : KeyBlock)]
  simp [length_clearValues]

/-! ### Claim C4 -/

/-- Claim C4, counterexample: on an object whose collection already
contains a block named `SmileL` (collection `[Basis, Smile, SmileL]`,
active `Smile` at position 1, groups `L` and `R` both present — an input
inside the claim's quantifier), the split does not create an entry named
`Smile ++ L`: the host's name uniquification stores `SmileL.001` for the
created key (position 2), the only block named `SmileL` in the result is
the pre-existing one, and the function nevertheless returns the pair
`(SmileL, SmileR)` built from the Python-side strings. -/
theorem C4_counterexample :
    (split_shapekey_by_groups (some ⟨some [⟨"Basis", 0, ""⟩,
        ⟨"Smile", 0, ""⟩, ⟨"SmileL", 0, ""⟩], 1, ["L", "R"], "MESH",
        "OBJECT"⟩) "L" "R").map
        (fun p => ((keyBlocks p.1).map KeyBlock.name, p.2))
      = some (["Basis", "Smile", "SmileL.001", "SmileR", "SmileL"],
          ("SmileL", "SmileR")) ∧
    ("SmileL.001" : String) ≠ "Smile" ++ "L" ∧
    (["Basis", "Smile", "SmileL.001", "SmileR", "SmileL"].count "SmileL"
      = 1) := by
  decide

/-- Claim C4 (amended): for an object with shapekey collection
`A ++ sk :: B` (unique names), active index `|A|`, both vertex groups
present, and — the amendment — neither `sk.name ++ ga` nor
`sk.name ++ gb` already a shapekey name and the two created names
distinct, `split_shapekey_by_groups` creates exactly two new entries named
`sk.name ++ ga` and `sk.name ++ gb`, inserted immediately after the
original's position `|A|`; the original entry keeps position `|A|` with its
vertex-group mask cleared (and blend value reset); the active index is
restored to `|A|`; and the function returns the pair of created names.
(When a created name collides, the host stores a uniquified variant such
as `sk.name ++ ga ++ ".001"` instead, while the function still returns the
un-uniquified pair — see the counterexample.) -/
theorem C4_amended_theorem (o : SceneObject) (A B : List KeyBlock)
    (sk : KeyBlock) (ga gb : String)
    (hsk : o.shape_keys = some (A ++ sk :: B))
    (hidx : o.active_shape_key_index = A.length)
    (hnd : ((A ++ sk :: B).map KeyBlock.name).Nodup)
    (hga : o.vertex_groups.contains ga = true)
    (hgb : o.vertex_groups.contains gb = true)
    (hfa : sk.name ++ ga ∉ (A ++ sk :: B).map KeyBlock.name)
    (hfb : sk.name ++ gb ∉ (A ++ sk :: B).map KeyBlock.name)
    (hnames : sk.name ++ ga ≠ sk.name ++ gb) :
    split_shapekey_by_groups (some o) ga gb
      = some ({ o with
                  shape_keys := some (clearValues A ++ ⟨sk.name, 0, ""⟩
                    :: ⟨sk.name ++ ga, 0, ""⟩ :: ⟨sk.name ++ gb, 0, ""⟩
                    :: clearValues B)
                  active_shape_key_index := A.length },
        (sk.name ++ ga, sk.name ++ gb)) ∧
      (clearValues A ++ ⟨sk.name, 0, ""⟩ :: ⟨sk.name ++ ga, 0, ""⟩
          :: ⟨sk.name ++ gb, 0, ""⟩ :: clearValues B).map KeyBlock.name
        = A.map KeyBlock.name ++ sk.name :: (sk.name ++ ga)
            :: (sk.name ++ gb) :: B.map KeyBlock.name ∧
      (clearValues A ++ ⟨sk.name, 0, ""⟩ :: ⟨sk.name ++ ga, 0, ""⟩
          :: ⟨sk.name ++ gb, 0, ""⟩ :: clearValues B).get? A.length
        = some ⟨sk.name, 0, ""⟩ := by
  have hA : sk.name ∉ A.map KeyBlock.name := by
    have h1 : (A.map KeyBlock.name
        ++ sk.name :: B.map KeyBlock.name).Nodup := by
      simpa using hnd
    have h2 := List.nodup_middle.mp h1
    have h3 := (List.nodup_cons.mp h2).1
    intro hmem
    exact h3 (List.mem_append.mpr (Or.inl hmem))
  have hPA : ∀ x ∈ A, x.name ≠ sk.name := forall_name_ne_of_not_mem hA
  have hPclr : ∀ x ∈ clearValues A, x.name ≠ sk.name := by
    intro x hx
    simp only [clearValues] at hx
    rcases List.mem_map.mp hx with ⟨y, hy, rfl⟩
    exact hPA y hy
  refine ⟨?_, ?_, ?_⟩
  · have hget : (A ++ sk :: B).get? o.active_shape_key_index = some sk := by
      rw [hidx]
      exact get?_append_cons A sk B
    simp only [split_shapekey_by_groups, hsk, hget]
    rw [hidx]
    have hcond : (o.vertex_groups.contains ga
        && o.vertex_groups.contains gb) = true := by
      rw [hga, hgb]
      exact rfl
    rw [hcond, if_pos rfl]
    have hms : (A ++ sk :: B).length - A.length - 1 = B.length := by
      simp only [List.length_append, List.length_cons]
      omega
    rw [hms]
    simp only [List.foldl_cons, List.foldl_nil]
    have hfa' : sk.name ++ ga
        ∉ (A.map KeyBlock.name ++ sk.name :: B.map KeyBlock.name) := by
      simpa using hfa
    have hfb' : sk.name ++ gb ∉ A.map KeyBlock.name ∧
        sk.name ++ gb ≠ sk.name ∧
        sk.name ++ gb ∉ B.map KeyBlock.name := by
      have hfb2 := hfb
      simp only [List.map_append, List.map_cons, List.mem_append,
        List.mem_cons] at hfb2
      push_neg at hfb2
      exact hfb2
    have hfr1 : ((A.map KeyBlock.name ++ sk.name
        :: (([] : List KeyBlock).map KeyBlock.name
          ++ B.map KeyBlock.name))).contains (sk.name ++ ga) = false := by
      simp only [List.map_nil, List.nil_append]
      exact contains_eq_false_of_not_mem hfa'
    have hfr2 : (((clearValues A).map KeyBlock.name
        ++ (⟨sk.name, 1, ga⟩ : KeyBlock).name
          :: (([⟨sk.name ++ ga, 0, ""⟩] : List KeyBlock).map KeyBlock.name
            ++ (clearValues B).map KeyBlock.name)).contains
          ((⟨sk.name, 1, ga⟩ : KeyBlock).name ++ gb)) = false := by
      simp only [names_clearValues, List.map_cons, List.map_nil,
        List.cons_append, List.nil_append]
      apply contains_eq_false_of_not_mem
      intro hmem
      simp only [List.mem_append, List.mem_cons] at hmem
      rcases hmem with h | h | h | h
      · exact hfb'.1 h
      · exact hfb'.2.1 h
      · exact hnames h.symm
      · exact hfb'.2.2 h
    have hp1 := splitPass_eq A [] B sk ga hPA hfr1 A.length []
    simp only [List.nil_append, clearValues_nil, List.length_nil,
      Nat.add_zero, List.append_assoc, List.cons_append] at hp1
    rw [hp1]
    have hp2 := splitPass_eq (clearValues A) [⟨sk.name ++ ga, 0, ""⟩]
      (clearValues B) (⟨sk.name, 1, ga⟩ : KeyBlock) gb hPclr hfr2
      (A.length + 1) [sk.name ++ ga]
    simp only [List.nil_append, clearValues_nil, clearValues_cons,
      clearValues_idem, List.length_nil, List.length_cons, Nat.add_zero,
      List.append_assoc, List.cons_append, length_clearValues] at hp2
    rw [hp2]
    have hc6 : clearValues (clearValues A ++ ⟨sk.name, 1, gb⟩
        :: ⟨sk.name ++ ga, 0, ""⟩ :: ⟨sk.name ++ gb, 0, ""⟩
          :: clearValues B)
        = clearValues A ++ ⟨sk.name, 0, gb⟩ :: ⟨sk.name ++ ga, 0, ""⟩
          :: ⟨sk.name ++ gb, 0, ""⟩ :: clearValues B := by
      simp [clearValues_append, clearValues_cons, clearValues_idem]
    rw [hc6]
    rw [findIdx_name_append (clearValues A) (⟨sk.name, 0, gb⟩ : KeyBlock)
      (⟨sk.name ++ ga, 0, ""⟩ :: ⟨sk.name ++ gb, 0, ""⟩ :: clearValues B)
      sk.name rfl hPclr]
    rw [updateAt_append_cons (clearValues A) (⟨sk.name, 0, gb⟩ : KeyBlock)
      (⟨sk.name ++ ga, 0, ""⟩ :: ⟨sk.name ++ gb, 0, ""⟩ :: clearValues B)]
    rw [length_clearValues]
    rw [if_neg (fun hcon => hcon rfl)]
    simp
  · simp only [List.map_append, List.map_cons, names_clearValues]
  · have hg := get?_append_cons (clearValues A) (⟨sk.name, 0, ""⟩ : KeyBlock)
      (⟨sk.name ++ ga, 0, ""⟩ :: ⟨sk.name ++ gb, 0, ""⟩ :: clearValues B)
    rwa [length_clearValues] at hg

/-- Claim C4, witness for the amended theorem: splitting the active
shapekey `Smile` (position 1 of `[Basis, Smile, Frown]`, where neither
`SmileL` nor `SmileR` exists yet) by groups `L` and `R` yields
`[Basis, Smile, SmileL, SmileR, Frown]` with `Smile` still at position 1,
mask cleared, active index 1, returning `(SmileL, SmileR)`. -/
theorem C4_amended_witness :
    split_shapekey_by_groups (some ⟨some [⟨"Basis", 0, ""⟩,
        ⟨"Smile", 0, ""⟩, ⟨"Frown", 0, ""⟩], 1, ["L", "R"], "MESH",
        "OBJECT"⟩) "L" "R"
      = some (⟨some [⟨"Basis", 0, ""⟩, ⟨"Smile", 0, ""⟩, ⟨"SmileL", 0, ""⟩,
          ⟨"SmileR", 0, ""⟩, ⟨"Frown", 0, ""⟩], 1, ["L", "R"], "MESH",
          "OBJECT"⟩, ("SmileL", "SmileR")) := by
  have h := C4_amended_theorem
    ⟨some [⟨"Basis", 0, ""⟩, ⟨"Smile", 0, ""⟩, ⟨"Frown", 0, ""⟩], 1,
      ["L", "R"], "MESH", "OBJECT"⟩
    [⟨"Basis", 0, ""⟩] [⟨"Frown", 0, ""⟩] ⟨"Smile", 0, ""⟩ "L" "R"
    rfl rfl (by decide) (by decide) (by decide) (by decide) (by decide)
    (by decide)
  exact h.1

end PawlygonUtils
